import Mathlib

/-!
Verification of the Selection/Annotation/Isolated-Region consistency engine
of the substance repository.

The development shallowly embeds the relevant source files:
  * src/model/copySelection.js   (copySelection, _copyPropertySelection,
                                  _copyContainerSelection, _copyNodeSelection, _copyNode)
  * src/model/PropertyAnnotation.js  (_updateRange, isInsideOf)
  * src/dom/XNode.js             (insertBefore)
and, for the isolated-region state resolver whose implementation is not part
of the provided sources (only its tests are), a model built from the spec.

Machine integers do not occur; all offsets are JavaScript numbers used as
non-negative integers and are modelled by Nat.  JS `Math.max(a,b)-a` style
expressions coincide with truncated Nat subtraction where noted.
-/

/-- An annotation record: id, the text-property path it refers to, and its
start/end character offsets.  Mirrors the data of PropertyAnnotation
(start.path = end.path for property annotations); `toJSON` of an annotation
is the record itself. -/
structure Anno where
  id : String
  path : List String
  startOffset : Nat
  endOffset : Nat
deriving DecidableEq, Repr

/-- A document node as used by the copy engine: its id, type, the content of
its single text property (path `[id, "content"]`), and the ids referenced by
its owning-reference / file-typed schema properties, flattened in schema
order (this is the list `_copyNode` recurses over). -/
structure DocNode where
  id : String
  type : String
  content : String
  ownedIds : List String
deriving DecidableEq, Repr

/-- The document collaborator: a node store plus an annotation store, and the
schema default text type used by `_copyPropertySelection`. -/
structure Doc where
  defaultTextType : String
  nodes : List DocNode
  annos : List Anno
deriving DecidableEq, Repr

/-- doc.get(nodeId) for nodes. -/
def Doc.getNode (doc : Doc) (id : String) : Option DocNode :=
  doc.nodes.find? fun n => n.id == id

/-- doc.get(path) for text properties: the content of the node whose text
property path equals the given path. -/
def Doc.getText (doc : Doc) (path : List String) : Option String :=
  (doc.nodes.find? fun n => path == [n.id, "content"]).map fun n => n.content

/-- Modelled from the spec: AnnotationIndex.get(path, startOffset, endOffset)
(spec 4.1); the AnnotationIndex implementation is not among the provided
sources.  An annotation overlaps the window iff start < endOffset and
end > startOffset; for a collapsed window any annotation covering the single
offset counts. -/
def annoIndexGet (doc : Doc) (path : List String) (s e : Nat) : List Anno :=
  doc.annos.filter fun a =>
    a.path == path &&
      (if s == e then decide (a.startOffset ≤ s) && decide (s ≤ a.endOffset)
       else decide (a.startOffset < e) && decide (s < a.endOffset))

/-- Modelled from the spec: AnnotationIndex.get([nodeId]) (spec 4.1) — all
annotations whose path begins with nodeId; used by `_copyNode` to collect a
node's own annotations. -/
def annoIndexNode (doc : Doc) (nodeId : String) : List Anno :=
  doc.annos.filter fun a => a.path.head? == some nodeId

/-- A fragment of a container selection (spec 3): a whole-node fragment with
path `[nodeId]`, or a partial-text fragment (type `selection-fragment`) with
a property path and offsets. -/
inductive Fragment where
  | nodeFrag (nodeId : String)
  | selFrag (path : List String) (startOffset endOffset : Nat)
deriving DecidableEq, Repr

/-- fragment.path as used by the source: `[nodeId]` for a node fragment, the
property path for a selection fragment. -/
def Fragment.fragPath : Fragment → List String
  | .nodeFrag n => [n]
  | .selFrag p _ _ => p

/-- fragment.path[0]: the id of the node a fragment belongs to. -/
def Fragment.ownerId (f : Fragment) : String := f.fragPath.headD ""

/-- Modelled from the spec: the Selection tagged union (spec 3); the Selection
classes are not among the provided sources.  A container selection carries
its fragment decomposition (what `getFragments()` returns) together with its
endpoints; `custom` stands for any other selection kind reaching the
unsupported branches of the code. -/
inductive Selection where
  | nullSel
  | property (path : List String) (startOffset endOffset : Nat) (surfaceId : Option String)
  | container (fragments : List Fragment) (startPath : List String) (startOffset : Nat)
      (endPath : List String) (endOffset : Nat) (surfaceId : Option String)
  | node (nodeId : String) (containerId : String) (mode : String) (surfaceId : Option String)
  | custom (kind : String)
deriving DecidableEq, Repr

/-- selection.isNull() -/
def Selection.isNull : Selection → Bool
  | .nullSel => true
  | _ => false

/-- selection.isCollapsed(): a range with start = end is collapsed (spec 3);
the null selection counts as collapsed. -/
def Selection.isCollapsed : Selection → Bool
  | .nullSel => true
  | .property _ s e _ => s == e
  | .container _ sp so ep eo _ => sp == ep && so == eo
  | .node _ _ _ _ => false
  | .custom _ => false

/-- selection.isPropertySelection() -/
def Selection.isPropertySelection : Selection → Bool
  | .property _ _ _ _ => true
  | _ => false

/-- selection.isContainerSelection() -/
def Selection.isContainerSelection : Selection → Bool
  | .container _ _ _ _ _ _ => true
  | _ => false

/-- selection.isNodeSelection() -/
def Selection.isNodeSelection : Selection → Bool
  | .node _ _ _ _ => true
  | _ => false

/-- A write performed through the transaction by
PropertyAnnotation._updateRange: tx.set([id,"path"], p),
tx.set([id,"start","offset"], o) or tx.set([id,"end","offset"], o). -/
inductive WriteOp where
  | setPath (annoId : String) (path : List String)
  | setStartOffset (annoId : String) (offset : Nat)
  | setEndOffset (annoId : String) (offset : Nat)
deriving DecidableEq, Repr

/-- PropertyAnnotation._updateRange(tx, sel) from src/model/PropertyAnnotation.js:
throws for a non-property selection; otherwise emits a write for the path iff
it differs (element-wise array comparison, isArrayEqual), and a write for each
offset iff it differs.  The returned list is the sequence of tx.set calls. -/
def updateRange (a : Anno) (sel : Selection) : Except String (List WriteOp) :=
  match sel with
  | Selection.property p s e _ =>
    .ok ((if a.path == p then [] else [WriteOp.setPath a.id p]) ++
         (if a.startOffset == s then [] else [WriteOp.setStartOffset a.id s]) ++
         (if a.endOffset == e then [] else [WriteOp.setEndOffset a.id e]))
  | _ => .error "Invalid argument: updateRange requires a PropertySelection."

/-- PropertyAnnotation.isInsideOf(sel, _strict) from
src/model/PropertyAnnotation.js.  Returns the JS return value (none models
the implicit undefined of the unsupported branch) together with the list of
console.warn diagnostics emitted. -/
def isInsideOf (a : Anno) (sel : Selection) (strict : Bool) : Option Bool × List String :=
  if sel.isNull then (some false, [])
  else
    match sel with
    | Selection.property p s e _ =>
      if strict then
        (some (a.path == p && decide (s < a.startOffset) && decide (a.endOffset < e)), [])
      else
        (some (a.path == p && decide (s ≤ a.startOffset) && decide (a.endOffset ≤ e)), [])
    | _ => (none, ["isInsideOf does not support other selection types."])

/-- An XNode, reduced to what insertBefore manipulates: `ident` models JS
object identity (reference equality, as used by children.indexOf), and
`children` models the possibly-undefined children array — tag, document and
unknown-type nodes get an array in the constructor, text/comment/CDATA/
directive nodes leave it undefined. -/
structure XNode where
  ident : Nat
  children : Option (List Nat)
deriving DecidableEq, Repr

/-- Insert `newId` immediately before the first occurrence of `refId`
(DomUtils.prepend at the position found by indexOf). -/
def insertIdBefore : List Nat → Nat → Nat → List Nat
  | [], _, _ => []
  | c :: cs, refId, newId =>
    if c == refId then newId :: c :: cs else c :: insertIdBefore cs refId newId

/-- XNode.insertBefore(newChild, before) from src/dom/XNode.js: if the node
has a children array, the reference must be an actual child or an error is
thrown; if the node has no children array (text-like nodes) the call silently
returns the node unchanged. -/
def insertBefore (x newChild before : XNode) : Except String XNode :=
  match x.children with
  | none => .ok x
  | some cs =>
    if cs.contains before.ident then
      .ok { x with children := some (insertIdBefore cs before.ident newChild.ident) }
    else
      .error "insertBefore: reference node is not a child of this element."

/-- The display mode of an isolated-node region (spec 4.4); not-selected is
the omitted/undefined mode and is modelled by `none`. -/
inductive RegionMode where
  | selected
  | coselected
  | focused
  | cofocused
deriving DecidableEq, Repr

/-- Split a list of characters on the slash delimiter. -/
def splitSlash : List Char → List String
  | [] => [""]
  | c :: cs =>
    if c = '/' then "" :: splitSlash cs
    else
      match splitSlash cs with
      | [] => [String.mk [c]]
      | t :: ts => String.mk (c :: t.data) :: ts

/-- Tokenize a region/surface path on the slash delimiter (spec 3 and 4.4). -/
def tokenize (p : String) : List String := splitSlash p.data

/-- The owning surface path of a selection, when it has one. -/
def selSurface : Selection → Option String
  | .property _ _ _ surf => surf
  | .container _ _ _ _ _ surf => surf
  | .node _ _ _ surf => surf
  | _ => none

/-- Modelled from the spec: the Isolated-Region State Resolver (spec 4.4);
its implementation is not among the provided sources (only its tests under
src/unnamed/part_000 are).  Decision procedure: a null selection (or one
without an owning surface) yields not-selected for every region; otherwise
the surface path and the region path are tokenized on the delimiter and
compared segment-wise — equal tokens, or a surface exactly one segment
inside the region, give `focused`; a strictly deeper descendant by token
prefix gives `cofocused`; a node selection targeting exactly this region
with mode full gives `selected`; a container selection covering the
region's node id gives `coselected`; otherwise not-selected.  Raw
string-prefix comparison is never used. -/
def regionMode (sel : Selection) (region : String) : Option RegionMode :=
  match selSurface sel with
  | none => none
  | some surf =>
    let st := tokenize surf
    let rt := tokenize region
    if rt == st then some RegionMode.focused
    else if rt.isPrefixOf st && rt.length + 1 == st.length then some RegionMode.focused
    else if rt.isPrefixOf st then some RegionMode.cofocused
    else
      match sel with
      | Selection.node nodeId _ mode _ =>
        if mode == "full" && rt == st ++ [nodeId] then some RegionMode.selected else none
      | Selection.container frags _ _ _ _ _ =>
        if (frags.map Fragment.ownerId).any (fun n => rt == st ++ [n]) then
          some RegionMode.coselected
        else none
      | _ => none

/-- The id Document.TEXT_SNIPPET_ID used for the single text node created by
_copyPropertySelection. -/
def textSnippetId : String := "text-snippet"

/-- An entity created into a snippet through snippet.create: either a node
JSON record or an annotation JSON record (both are produced by _copyNode). -/
inductive Entity where
  | node (n : DocNode)
  | anno (a : Anno)
deriving DecidableEq, Repr

/-- The id of a created entity (copy.id in the source). -/
def Entity.eid : Entity → String
  | .node n => n.id
  | .anno a => a.id

/-- The snippet document produced by doc.createSnippet() and filled by the
copy engine: created nodes and annotations in creation order, plus the ids
registered visible on the snippet container via container.show. -/
structure Snippet where
  nodes : List DocNode
  annos : List Anno
  shown : List String
deriving DecidableEq, Repr

/-- The empty snippet. -/
def Snippet.empty : Snippet := ⟨[], [], []⟩

/-- snippet.create(data): append the created entity. -/
def Snippet.create (sn : Snippet) (ent : Entity) : Snippet :=
  match ent with
  | .node n => { sn with nodes := sn.nodes ++ [n] }
  | .anno a => { sn with annos := sn.annos ++ [a] }

/-- Delete the character range [a, b) from a string (the type delete update
applied by snippet.update). -/
def strDeleteRange (t : String) (a b : Nat) : String :=
  String.mk (t.data.take a ++ t.data.drop b)

/-- Modelled from the spec: snippet.update(path, type delete, start, end)
(Document.update is not among the provided sources) — deletes the character
range from the text property at the given path (spec 4.3). -/
def Snippet.updateDelete (sn : Snippet) (path : List String) (a b : Nat) : Snippet :=
  { sn with
    nodes := sn.nodes.map fun n =>
      if path == [n.id, "content"] then { n with content := strDeleteRange n.content a b }
      else n }

/-- Modelled from the spec: the text-deletion side effect on a single offset
when [a, b) is deleted — offsets past the deleted range shift left, offsets
inside clamp to the deletion start (spec 4.3 and 7). -/
def deletedTextOffset (a b o : Nat) : Nat :=
  if o ≤ a then o else max a (o - (b - a))

/-- Modelled from the spec: annotationHelpers.deletedText(snippet, path, a, b)
(annotationHelpers is not among the provided sources) — propagates the text
deletion [a, b) to every annotation on the path (spec 4.3). -/
def Snippet.deletedText (sn : Snippet) (path : List String) (a b : Nat) : Snippet :=
  { sn with
    annos := sn.annos.map fun x =>
      if x.path == path then
        { x with startOffset := deletedTextOffset a b x.startOffset,
                 endOffset := deletedTextOffset a b x.endOffset }
      else x }

/-- The errors a copy run can end in.  mandatorySelection is the explicit
throw of copySelection; missingNode/missingText model the JS TypeError
crashes on dereferencing a missing document entry; fuelExhausted is the
embedding artifact standing for a recursion that has not terminated within
the given recursion budget (the source recursion carries no such bound). -/
inductive CopyErr where
  | mandatorySelection
  | fuelExhausted
  | missingNode (id : String)
  | missingText (path : List String)
deriving DecidableEq, Repr

/-- Sequence a copy step over a list of ids, concatenating the produced
entity lists (the forEach loop over owned references in _copyNode). -/
def copyChildrenWith (f : String → Except CopyErr (List Entity)) :
    List String → Except CopyErr (List Entity)
  | [] => .ok []
  | id :: rest =>
    match f id with
    | .error e => .error e
    | .ok l =>
      match copyChildrenWith f rest with
      | .error e => .error e
      | .ok ls => .ok (l ++ ls)

/-- One unfolding of _copyNode from src/model/copySelection.js, parameterized
by the function used for the recursive calls: resolve the node, copy the
nodes referenced by owning-reference/file properties first (depth-first,
pre-order), then the node record itself, then the annotations attached to
the node. -/
def copyNodeStep (doc : Doc) (f : String → Except CopyErr (List Entity)) (id : String) :
    Except CopyErr (List Entity) :=
  match doc.getNode id with
  | none => .error (CopyErr.missingNode id)
  | some node =>
    match copyChildrenWith f node.ownedIds with
    | .error e => .error e
    | .ok children =>
      .ok (children ++ [Entity.node node] ++ (annoIndexNode doc node.id).map Entity.anno)

/-- _copyNode bounded by a recursion budget: the source function recurses
with no bound and no cycle detection, so the embedding threads explicit fuel;
a run that returns within some finite fuel is exactly a terminating run of
the source recursion. -/
def copyNodeFuel (doc : Doc) : Nat → String → Except CopyErr (List Entity)
  | 0 => fun _ => .error CopyErr.fuelExhausted
  | Nat.succ fuel => copyNodeStep doc (copyNodeFuel doc fuel)

/-- The source _copyNode diverges on this input: at every finite recursion
budget it has neither produced a result nor raised any error other than the
budget itself running out. -/
def copyNodeDivergesOn (doc : Doc) (id : String) : Prop :=
  ∀ fuel, copyNodeFuel doc fuel id = .error CopyErr.fuelExhausted

/-- _copyPropertySelection from src/model/copySelection.js: one text node
holding text.substring(offset, endOffset), shown in the container, plus each
overlapping annotation re-targeted to the new path with offsets
Math.max(offset, start)-offset and Math.min(endOffset, end)-offset. -/
def jsSubstring (t : String) (a b : Nat) : String :=
  let len := t.data.length
  let a1 := min a len
  let b1 := min b len
  String.mk ((t.data.take (max a1 b1)).drop (min a1 b1))

/-- Re-target one annotation to the snippet text node, clamping its offsets
into the copied window (the forEach body of _copyPropertySelection). -/
def clipAnno (s e : Nat) (a : Anno) : Anno :=
  { a with
    path := [textSnippetId, "content"],
    startOffset := max s a.startOffset - s,
    endOffset := min e a.endOffset - s }

/-- _copyPropertySelection from src/model/copySelection.js. -/
def copyPropertySelection (doc : Doc) (path : List String) (s e : Nat) :
    Except CopyErr Snippet :=
  match doc.getText path with
  | none => .error (CopyErr.missingText path)
  | some text =>
    .ok { nodes := [{ id := textSnippetId, type := doc.defaultTextType,
                      content := jsSubstring text s e, ownedIds := [] }],
          annos := (annoIndexGet doc path s e).map (clipAnno s e),
          shown := [textSnippetId] }

/-- The node-copying loop of _copyContainerSelection: for each fragment, if
an entity with the owning node's id has not been created yet, copy the node
transitively, register every created id, and show the node; otherwise skip
it.  Returns the snippet and the set of created ids. -/
def copyFragLoop (fuel : Nat) (doc : Doc) :
    List Fragment → Snippet → List String → Except CopyErr (Snippet × List String)
  | [], sn, created => .ok (sn, created)
  | frag :: rest, sn, created =>
    let nodeId := frag.ownerId
    if created.contains nodeId then copyFragLoop fuel doc rest sn created
    else
      match copyNodeFuel doc fuel nodeId with
      | .error e => .error e
      | .ok entities =>
        let sn1 := entities.foldl Snippet.create sn
        copyFragLoop fuel doc rest { sn1 with shown := sn1.shown ++ [nodeId] }
          (created ++ entities.map Entity.eid)

/-- The first-fragment step of _copyContainerSelection: if the first
fragment is a partial-text fragment, delete the prefix [0, startOffset) from
its property in the snippet and propagate the deletion to the annotations on
that property. -/
def applyFirstTrim (fragments : List Fragment) (sn : Snippet) : Snippet :=
  match fragments.head? with
  | some (Fragment.selFrag p s _) => (sn.updateDelete p 0 s).deletedText p 0 s
  | _ => sn

/-- The last-fragment step of _copyContainerSelection: if the last fragment
is a partial-text fragment, delete [endOffset, text.length) from its
property in the snippet, where text is read from the source document —
a missing source property is a TypeError crash (text.length on undefined). -/
def applyLastTrim (doc : Doc) (fragments : List Fragment) (sn : Snippet) :
    Except CopyErr Snippet :=
  match fragments.getLast? with
  | some (Fragment.selFrag p _ e) =>
    match doc.getText p with
    | none => .error (CopyErr.missingText p)
    | some t => .ok ((sn.updateDelete p e t.length).deletedText p e t.length)
  | _ => .ok sn

/-- _copyContainerSelection from src/model/copySelection.js: run the copy
loop over the fragments, then trim the part before the selection off the
first fragment and the part after the selection off the last fragment. -/
def copyContainerSelection (fuel : Nat) (doc : Doc) (fragments : List Fragment) :
    Except CopyErr Snippet :=
  if fragments.isEmpty then .ok Snippet.empty
  else
    match copyFragLoop fuel doc fragments Snippet.empty [] with
    | .error e => .error e
    | .ok (sn0, _) => applyLastTrim doc fragments (applyFirstTrim fragments sn0)

/-- _copyNodeSelection from src/model/copySelection.js: copy the selected
node transitively and show it as the sole visible child of the snippet
container. -/
def copyNodeSelection (fuel : Nat) (doc : Doc) (nodeId : String) :
    Except CopyErr Snippet :=
  match copyNodeFuel doc fuel nodeId with
  | .error e => .error e
  | .ok entities =>
    let sn := entities.foldl Snippet.create Snippet.empty
    .ok { sn with shown := sn.shown ++ [nodeId] }

/-- The outcome of a successful copySelection call: the copy (null when the
selection is null, collapsed or unsupported) and the console.error
diagnostics emitted. -/
structure CopyOutcome where
  copy : Option Snippet
  diagnostics : List String
deriving DecidableEq, Repr

/-- copySelection from src/model/copySelection.js: throws if no selection is
given; returns null for a null or collapsed selection; dispatches on the
selection kind; reports unsupported kinds with a console.error diagnostic
and returns null. -/
def copySelection (fuel : Nat) (doc : Doc) (sel? : Option Selection) :
    Except CopyErr CopyOutcome :=
  match sel? with
  | none => .error CopyErr.mandatorySelection
  | some sel =>
    if !sel.isNull && !sel.isCollapsed then
      match sel with
      | Selection.property p s e _ =>
        match copyPropertySelection doc p s e with
        | .error er => .error er
        | .ok sn => .ok ⟨some sn, []⟩
      | Selection.container frags _ _ _ _ _ =>
        match copyContainerSelection fuel doc frags with
        | .error er => .error er
        | .ok sn => .ok ⟨some sn, []⟩
      | Selection.node nodeId _ _ _ =>
        match copyNodeSelection fuel doc nodeId with
        | .error er => .error er
        | .ok sn => .ok ⟨some sn, []⟩
      | _ => .ok ⟨none, ["Copy is not yet supported for selection type."]⟩
    else .ok ⟨none, []⟩

/-- Project a created entity to a node record, when it is one. -/
def entNode : Entity → Option DocNode
  | .node n => some n
  | _ => none

/-- Project a created entity to an annotation record, when it is one. -/
def entAnno : Entity → Option Anno
  | .anno a => some a
  | _ => none

/-- An entity is a verbatim record of the source document: _copyNode emits
only node records resolved from the document and annotations from its
annotation index. -/
def entFrom (doc : Doc) : Entity → Prop
  | .node n => n ∈ doc.nodes
  | .anno a => a ∈ doc.annos

/-- Stated from the claim: the effect of the first-fragment prefix trim of
_copyContainerSelection on one copied node record — if the first fragment is
a partial-text fragment on this node's property, the prefix up to its
startOffset is deleted from the content; otherwise the record is untouched. -/
def trimFirstNodeSpec (F : List Fragment) (n : DocNode) : DocNode :=
  match F.head? with
  | some (Fragment.selFrag p s _) =>
    if p == [n.id, "content"] then { n with content := strDeleteRange n.content 0 s } else n
  | _ => n

/-- Stated from the claim: the first-fragment prefix trim propagated to one
copied annotation record. -/
def trimFirstAnnoSpec (F : List Fragment) (x : Anno) : Anno :=
  match F.head? with
  | some (Fragment.selFrag p s _) =>
    if x.path == p then
      { x with startOffset := deletedTextOffset 0 s x.startOffset,
               endOffset := deletedTextOffset 0 s x.endOffset }
    else x
  | _ => x

/-- Stated from the claim: the last-fragment suffix trim on one copied node
record — if the last fragment is a partial-text fragment on this node's
property, the range from its endOffset up to the length of the property in
the source document is deleted from the content. -/
def trimLastNodeSpec (doc : Doc) (F : List Fragment) (n : DocNode) : DocNode :=
  match F.getLast? with
  | some (Fragment.selFrag p _ e) =>
    if p == [n.id, "content"] then
      { n with content := strDeleteRange n.content e ((doc.getText p).getD "").length }
    else n
  | _ => n

/-- Stated from the claim: the last-fragment suffix trim propagated to one
copied annotation record. -/
def trimLastAnnoSpec (doc : Doc) (F : List Fragment) (x : Anno) : Anno :=
  match F.getLast? with
  | some (Fragment.selFrag p _ e) =>
    if x.path == p then
      { x with startOffset := deletedTextOffset e ((doc.getText p).getD "").length x.startOffset,
               endOffset := deletedTextOffset e ((doc.getText p).getD "").length x.endOffset }
    else x
  | _ => x

/-- A document whose single node owns itself: the minimal cyclic ownership
graph, used to exhibit the behavior of _copyNode on a cycle. -/
def cyclicDoc : Doc := ⟨"paragraph", [⟨"n1", "structured-node", "", ["n1"]⟩], []⟩

/-- A two-node document whose ownership references form a tree: `par` owns
`child`. -/
def treeDocW : Doc :=
  ⟨"paragraph",
   [⟨"par", "structured-node", "", ["child"]⟩, ⟨"child", "paragraph", "hi", []⟩],
   [⟨"a9", ["child", "content"], 0, 1⟩]⟩

/-- A rank function decreasing along treeDocW ownership edges. -/
def rankW : String → Nat := fun s => if s == "par" then 1 else 0

/-- A document with one text node and two annotations, one overlapping the
window [1,3) and one fully outside it. -/
def docW2 : Doc :=
  ⟨"paragraph",
   [⟨"p1", "paragraph", "abcd", []⟩],
   [⟨"a1", ["p1", "content"], 1, 3⟩, ⟨"a2", ["p1", "content"], 3, 4⟩]⟩

/-- The text property path of docW2. -/
def pW2 : List String := ["p1", "content"]

/-- A two-text-node document for the container-selection witness. -/
def docW3 : Doc :=
  ⟨"paragraph",
   [⟨"p1", "paragraph", "abcde", []⟩, ⟨"p2", "paragraph", "xyz", []⟩],
   [⟨"b1", ["p1", "content"], 0, 4⟩]⟩

/-- The fragments of a container selection spanning docW3 from offset 2 in p1
to offset 2 in p2. -/
def fragsW3 : List Fragment :=
  [Fragment.selFrag ["p1", "content"] 2 5, Fragment.selFrag ["p2", "content"] 0 2]

/-- The snippet copyContainerSelection produces for fragsW3 on docW3. -/
def snW3 : Snippet :=
  match copyContainerSelection 1 docW3 fragsW3 with
  | .ok sn => sn
  | .error _ => Snippet.empty

/-- Length of the JS substring [a, b) when the bounds are ordered and inside
the string. -/
theorem jsSubstring_length (t : String) (a b : Nat) (h1 : a ≤ b) (h2 : b ≤ t.length) :
    (jsSubstring t a b).length = b - a := by
  have hL : t.length = t.data.length := rfl
  rw [hL] at h2
  show ((t.data.take (max (min a t.data.length) (min b t.data.length))).drop
      (min (min a t.data.length) (min b t.data.length))).length = b - a
  rw [List.length_drop, List.length_take]
  omega

/-- A successful node lookup yields a stored node carrying the looked-up id. -/
theorem getNode_mem {doc : Doc} {id : String} {n : DocNode}
    (h : doc.getNode id = some n) : n ∈ doc.nodes ∧ n.id = id := by
  refine ⟨List.mem_of_find?_eq_some h, ?_⟩
  have := List.find?_some h
  simpa using this

/-- If every child copy succeeds, the sequenced children copy succeeds. -/
theorem copyChildrenWith_ok (f : String → Except CopyErr (List Entity)) :
    ∀ ids : List String, (∀ c ∈ ids, ∃ l, f c = .ok l) →
      ∃ ls, copyChildrenWith f ids = .ok ls := by
  intro ids
  induction ids with
  | nil => intro _; exact ⟨[], rfl⟩
  | cons id rest ih =>
    intro h
    obtain ⟨l, hl⟩ := h id (by simp)
    obtain ⟨ls, hls⟩ := ih fun c hc => h c (by simp [hc])
    exact ⟨l ++ ls, by rw [copyChildrenWith, hl, hls]⟩

/-- Strong-induction core of the termination argument: a rank function
decreasing along ownership edges bounds the recursion depth of _copyNode. -/
theorem copy_node_terminates_aux (doc : Doc) (rank : String → Nat)
    (hclosed : ∀ n ∈ doc.nodes, ∀ c ∈ n.ownedIds, (doc.getNode c).isSome = true)
    (hrank : ∀ n ∈ doc.nodes, ∀ c ∈ n.ownedIds, rank c < rank n.id) :
    ∀ k id fuel, rank id ≤ k → (doc.getNode id).isSome = true → rank id < fuel →
      ∃ l, copyNodeFuel doc fuel id = .ok l := by
  intro k
  induction k using Nat.strong_induction_on with
  | _ k ih =>
    intro id fuel hk hroot hfuel
    cases fuel with
    | zero => omega
    | succ f =>
      cases hg : doc.getNode id with
      | none => rw [hg] at hroot; simp at hroot
      | some node =>
        obtain ⟨hmem, hid⟩ := getNode_mem hg
        have hch : ∀ c ∈ node.ownedIds, ∃ l, copyNodeFuel doc f c = .ok l := by
          intro c hc
          have h1 := hclosed node hmem c hc
          have h2 : rank c < rank id := by
            have := hrank node hmem c hc
            rwa [hid] at this
          exact ih (rank c) (by omega) c f (le_refl _) h1 (by omega)
        obtain ⟨ls, hls⟩ := copyChildrenWith_ok _ _ hch
        refine ⟨ls ++ [Entity.node node] ++ (annoIndexNode doc node.id).map Entity.anno, ?_⟩
        rw [copyNodeFuel]
        unfold copyNodeStep
        rw [hg]
        simp [hls]

/-- On the self-owning document, _copyNode consumes any recursion budget
without completing and without raising any other error. -/
theorem cyclicDoc_diverges_aux :
    ∀ fuel, copyNodeFuel cyclicDoc fuel "n1" = .error CopyErr.fuelExhausted := by
  intro fuel
  induction fuel with
  | zero => rfl
  | succ f ih =>
    rw [copyNodeFuel]
    have hg : cyclicDoc.getNode "n1" = some ⟨"n1", "structured-node", "", ["n1"]⟩ := rfl
    unfold copyNodeStep
    rw [hg]
    simp only [copyChildrenWith, ih]

/-- Entities produced by the sequenced children copy satisfy any predicate
the copy step guarantees. -/
theorem copyChildrenWith_ents (P : Entity → Prop) (f : String → Except CopyErr (List Entity))
    (hf : ∀ id l, f id = .ok l → ∀ ent ∈ l, P ent) :
    ∀ (ids : List String) (ls : List Entity),
      copyChildrenWith f ids = .ok ls → ∀ ent ∈ ls, P ent := by
  intro ids
  induction ids with
  | nil =>
    intro ls h ent hent
    rw [copyChildrenWith] at h
    cases h
    simp at hent
  | cons id rest ih =>
    intro ls h ent hent
    rw [copyChildrenWith] at h
    cases hfi : f id with
    | error e => rw [hfi] at h; cases h
    | ok l =>
      rw [hfi] at h
      cases hrest : copyChildrenWith f rest with
      | error e => rw [hrest] at h; cases h
      | ok ls2 =>
        rw [hrest] at h
        cases h
        rcases List.mem_append.mp hent with hm | hm
        · exact hf id l hfi ent hm
        · exact ih ls2 hrest ent hm

/-- Every entity a successful _copyNode run creates is a verbatim record of
the source document. -/
theorem copyNodeFuel_ents (doc : Doc) :
    ∀ (fuel : Nat) (id : String) (l : List Entity),
      copyNodeFuel doc fuel id = .ok l → ∀ ent ∈ l, entFrom doc ent := by
  intro fuel
  induction fuel with
  | zero => intro id l h; cases h
  | succ f ih =>
    intro id l h
    rw [copyNodeFuel] at h
    unfold copyNodeStep at h
    cases hg : doc.getNode id with
    | none => rw [hg] at h; cases h
    | some node =>
      rw [hg] at h
      cases hch : copyChildrenWith (copyNodeFuel doc f) node.ownedIds with
      | error e => simp only [hch] at h; cases h
      | ok children =>
        simp only [hch] at h
        cases h
        intro ent hent
        rcases List.mem_append.mp hent with hm | hm
        · rcases List.mem_append.mp hm with hm2 | hm2
          · exact copyChildrenWith_ents (entFrom doc) _ ih node.ownedIds children hch ent hm2
          · simp at hm2
            subst hm2
            exact (getNode_mem hg).1
        · obtain ⟨a, ha, rfl⟩ := List.mem_map.mp hm
          have := List.mem_of_mem_filter ha
          exact this

/-- A successful _copyNode run creates an entity carrying the root id. -/
theorem copyNodeFuel_root_mem (doc : Doc) (fuel : Nat) (id : String) (l : List Entity)
    (h : copyNodeFuel doc fuel id = .ok l) : id ∈ l.map Entity.eid := by
  cases fuel with
  | zero => cases h
  | succ f =>
    rw [copyNodeFuel] at h
    unfold copyNodeStep at h
    cases hg : doc.getNode id with
    | none => rw [hg] at h; cases h
    | some node =>
      rw [hg] at h
      cases hch : copyChildrenWith (copyNodeFuel doc f) node.ownedIds with
      | error e => simp only [hch] at h; cases h
      | ok children =>
        simp only [hch] at h
        cases h
        have hid : node.id = id := (getNode_mem hg).2
        simp [Entity.eid, hid.symm]

/-- Folding snippet.create over entities appends the node records and the
annotation records and leaves the shown list untouched. -/
theorem foldl_create_spec :
    ∀ (ents : List Entity) (sn : Snippet),
      (ents.foldl Snippet.create sn).nodes = sn.nodes ++ ents.filterMap entNode ∧
      (ents.foldl Snippet.create sn).annos = sn.annos ++ ents.filterMap entAnno ∧
      (ents.foldl Snippet.create sn).shown = sn.shown := by
  intro ents
  induction ents with
  | nil => intro sn; simp
  | cons ent rest ih =>
    intro sn
    cases ent with
    | node n =>
      have := ih (Snippet.create sn (Entity.node n))
      simpa [Snippet.create, entNode, entAnno, List.append_assoc] using this
    | anno a =>
      have := ih (Snippet.create sn (Entity.anno a))
      simpa [Snippet.create, entNode, entAnno, List.append_assoc] using this

/-- Invariant of the node-copying loop of _copyContainerSelection: shown ids
stay distinct and form a subsequence of the fragment owners in document
order, and every created record is a verbatim record of the source. -/
theorem copyFragLoop_inv (fuel : Nat) (doc : Doc) :
    ∀ (frags : List Fragment) (sn : Snippet) (created : List String)
      (sn2 : Snippet) (created2 : List String),
      copyFragLoop fuel doc frags sn created = .ok (sn2, created2) →
      (∀ x ∈ sn.shown, x ∈ created) →
      sn.shown.Nodup →
      (∀ n ∈ sn.nodes, n ∈ doc.nodes) →
      (∀ a ∈ sn.annos, a ∈ doc.annos) →
      ((∃ suffix, sn2.shown = sn.shown ++ suffix ∧
          List.Sublist suffix (frags.map Fragment.ownerId)) ∧
       sn2.shown.Nodup ∧
       (∀ n ∈ sn2.nodes, n ∈ doc.nodes) ∧
       (∀ a ∈ sn2.annos, a ∈ doc.annos)) := by
  intro frags
  induction frags with
  | nil =>
    intro sn created sn2 created2 h hsc hnd hnodes hannos
    rw [copyFragLoop] at h
    cases h
    exact ⟨⟨[], by simp, List.Sublist.refl _⟩, hnd, hnodes, hannos⟩
  | cons frag rest ih =>
    intro sn created sn2 created2 h hsc hnd hnodes hannos
    rw [copyFragLoop] at h
    by_cases hc : created.contains frag.ownerId
    · rw [if_pos hc] at h
      obtain ⟨⟨suffix, hs1, hs2⟩, hnd2, hn2, ha2⟩ :=
        ih sn created sn2 created2 h hsc hnd hnodes hannos
      exact ⟨⟨suffix, hs1, by simpa using List.Sublist.cons frag.ownerId hs2⟩, hnd2, hn2, ha2⟩
    · rw [if_neg hc] at h
      cases hcn : copyNodeFuel doc fuel frag.ownerId with
      | error e => rw [hcn] at h; cases h
      | ok entities =>
        rw [hcn] at h
        have hfold := foldl_create_spec entities sn
        have hroot : frag.ownerId ∈ entities.map Entity.eid :=
          copyNodeFuel_root_mem doc fuel frag.ownerId entities hcn
        have hents : ∀ ent ∈ entities, entFrom doc ent :=
          copyNodeFuel_ents doc fuel frag.ownerId entities hcn
        have hnotin : frag.ownerId ∉ created := by
          intro hmem
          exact hc (List.contains_iff_exists_mem_beq.mpr ⟨_, hmem, by simp⟩)
        have hsc1 : ∀ x ∈ sn.shown ++ [frag.ownerId], x ∈ created ++ entities.map Entity.eid := by
          intro x hx
          rcases List.mem_append.mp hx with hx | hx
          · exact List.mem_append.mpr (Or.inl (hsc x hx))
          · simp at hx
            subst hx
            exact List.mem_append.mpr (Or.inr hroot)
        have hnd1 : (sn.shown ++ [frag.ownerId]).Nodup := by
          rw [List.nodup_append]
          refine ⟨hnd, List.nodup_singleton _, ?_⟩
          intro x hx hx2
          simp at hx2
          subst hx2
          exact hnotin (hsc _ hx)
        have hnodes1 : ∀ n ∈ (entities.foldl Snippet.create sn).nodes, n ∈ doc.nodes := by
          rw [hfold.1]
          intro n hn
          rcases List.mem_append.mp hn with hn | hn
          · exact hnodes n hn
          · obtain ⟨ent, hent, hpr⟩ := List.mem_filterMap.mp hn
            cases ent with
            | node m => have := hents _ hent; simp [entNode] at hpr; subst hpr; exact this
            | anno _ => simp [entNode] at hpr
        have hannos1 : ∀ a ∈ (entities.foldl Snippet.create sn).annos, a ∈ doc.annos := by
          rw [hfold.2.1]
          intro a ha
          rcases List.mem_append.mp ha with ha | ha
          · exact hannos a ha
          · obtain ⟨ent, hent, hpr⟩ := List.mem_filterMap.mp ha
            cases ent with
            | anno b => have := hents _ hent; simp [entAnno] at hpr; subst hpr; exact this
            | node _ => simp [entAnno] at hpr
        obtain ⟨⟨suffix, hs1, hs2⟩, hnd2, hn2, ha2⟩ :=
          ih _ _ sn2 created2 h
            (by rw [hfold.2.2]; exact hsc1)
            (by rw [hfold.2.2]; exact hnd1)
            hnodes1 hannos1
        refine ⟨⟨frag.ownerId :: suffix, ?_, ?_⟩, hnd2, hn2, ha2⟩
        · rw [hs1]; simp [hfold.2.2]
        · simpa using List.Sublist.cons₂ frag.ownerId hs2

/-- The first-fragment trim acts on every copied record exactly as the
claim-level per-record transform describes. -/
theorem applyFirstTrim_spec (F : List Fragment) (sn : Snippet) :
    (applyFirstTrim F sn).nodes = sn.nodes.map (trimFirstNodeSpec F) ∧
    (applyFirstTrim F sn).annos = sn.annos.map (trimFirstAnnoSpec F) ∧
    (applyFirstTrim F sn).shown = sn.shown := by
  unfold applyFirstTrim trimFirstNodeSpec trimFirstAnnoSpec
  cases hh : F.head? with
  | none => simp
  | some frag =>
    cases frag with
    | nodeFrag nid => simp
    | selFrag p s e =>
      refine ⟨rfl, rfl, rfl⟩

/-- The last-fragment trim, when it succeeds, acts on every copied record
exactly as the claim-level per-record transform describes. -/
theorem applyLastTrim_spec (doc : Doc) (F : List Fragment) (sn sn2 : Snippet)
    (h : applyLastTrim doc F sn = .ok sn2) :
    sn2.nodes = sn.nodes.map (trimLastNodeSpec doc F) ∧
    sn2.annos = sn.annos.map (trimLastAnnoSpec doc F) ∧
    sn2.shown = sn.shown := by
  unfold applyLastTrim at h
  cases hh : F.getLast? with
  | none =>
    simp only [hh, Except.ok.injEq] at h
    subst h
    unfold trimLastNodeSpec trimLastAnnoSpec
    simp [hh]
  | some frag =>
    cases frag with
    | nodeFrag nid =>
      simp only [hh, Except.ok.injEq] at h
      subst h
      unfold trimLastNodeSpec trimLastAnnoSpec
      simp [hh]
    | selFrag p s e =>
      simp only [hh] at h
      cases ht : doc.getText p with
      | none => simp [ht] at h
      | some t =>
        simp only [ht, Except.ok.injEq] at h
        subst h
        unfold trimLastNodeSpec trimLastAnnoSpec
        simp only [hh, ht, Option.getD_some]
        exact ⟨rfl, rfl, rfl⟩

/-- Claim C1: for a region tree containing both `body/sn` and `body/sn2`,
when the active selection's owning surface path is `body/sn2/sn2.title`, the
region-state resolver reports `body/sn` as not-selected (mode omitted) and
`body/sn2` as focused, even though `body/sn` is a raw string prefix of the
surface path; and whenever the resolver reports co-focus, the region's token
sequence is a segment-wise prefix of the surface's token sequence — raw
string-prefix comparison is never what decides containment. -/
theorem claim1_region_resolver_prefix_robust :
    List.isPrefixOf "body/sn".data "body/sn2/sn2.title".data = true ∧
    regionMode (Selection.property ["sn2", "title"] 0 0 (some "body/sn2/sn2.title"))
      "body/sn" = none ∧
    regionMode (Selection.property ["sn2", "title"] 0 0 (some "body/sn2/sn2.title"))
      "body/sn2" = some RegionMode.focused ∧
    (∀ (sel : Selection) (region : String),
      regionMode sel region = some RegionMode.cofocused →
      ∃ surf, selSurface sel = some surf ∧
        (tokenize region).isPrefixOf (tokenize surf) = true) := by
  refine ⟨by decide, by decide, by decide, ?_⟩
  intro sel region h
  unfold regionMode at h
  cases hs : selSurface sel with
  | none => rw [hs] at h; simp at h
  | some surf =>
    rw [hs] at h
    refine ⟨surf, rfl, ?_⟩
    simp only [] at h
    split at h
    · simp at h
    · split at h
      · simp at h
      · split at h
        · rename_i h3
          simpa using h3
        · split at h
          · split at h <;> simp_all
          · split at h <;> simp_all
          · simp at h

/-- Witness for claim C1, discharging the co-focus hypothesis at the
three-level nested scenario of the test suite. -/
theorem claim1_witness :
    regionMode (Selection.property ["c2_p1", "content"] 0 0 (some "body/c1/c1/c2/c2"))
      "body/c1" = some RegionMode.cofocused ∧
    (∃ surf,
      selSurface (Selection.property ["c2_p1", "content"] 0 0 (some "body/c1/c1/c2/c2")) =
        some surf ∧ (tokenize "body/c1").isPrefixOf (tokenize surf) = true) :=
  ⟨by decide, claim1_region_resolver_prefix_robust.2.2.2 _ _ (by decide)⟩

/-- Claim C2: for every non-null, non-collapsed property selection [s,e) on
an existing text property, copySelection yields a snippet with a single text
node holding exactly the substring [s,e) of length e-s, whose annotations
are exactly the annotations overlapping [s,e) re-targeted to the new node's
path with start offset max(0, start-s) (truncated Nat subtraction) and end
offset min(e-s, end-s); annotations fully outside [s,e) do not appear. -/
theorem claim2_copy_property_selection (fuel : Nat) (doc : Doc) (path : List String)
    (s e : Nat) (surf : Option String) (text : String)
    (htext : doc.getText path = some text) (hse : s < e) (hlen : e ≤ text.length) :
    copySelection fuel doc (some (Selection.property path s e surf)) =
      .ok ⟨some
        { nodes := [{ id := textSnippetId, type := doc.defaultTextType,
                      content := jsSubstring text s e, ownedIds := [] }],
          annos := (doc.annos.filter fun a =>
              a.path == path && decide (a.startOffset < e) && decide (s < a.endOffset)).map
            fun a =>
              { a with
                path := [textSnippetId, "content"],
                startOffset := a.startOffset - s,
                endOffset := min (e - s) (a.endOffset - s) },
          shown := [textSnippetId] }, []⟩
    ∧ (jsSubstring text s e).length = e - s := by
  have hne : s ≠ e := Nat.ne_of_lt hse
  have hbe : (s == e) = false := by simp [hne]
  constructor
  · have hmap : (clipAnno s e) = fun a : Anno =>
        { a with
          path := [textSnippetId, "content"],
          startOffset := a.startOffset - s,
          endOffset := min (e - s) (a.endOffset - s) } := by
      funext a
      unfold clipAnno
      have hst : max s a.startOffset - s = a.startOffset - s := by omega
      have hen : min e a.endOffset - s = min (e - s) (a.endOffset - s) := by omega
      rw [hst, hen]
    have hfilter : annoIndexGet doc path s e =
        doc.annos.filter fun a =>
          a.path == path && decide (a.startOffset < e) && decide (s < a.endOffset) := by
      unfold annoIndexGet
      apply List.filter_congr
      intro a _
      rw [hbe]
      simp [Bool.and_assoc]
    have hcp : copyPropertySelection doc path s e =
        .ok { nodes := [{ id := textSnippetId, type := doc.defaultTextType,
                          content := jsSubstring text s e, ownedIds := [] }],
              annos := (doc.annos.filter fun a =>
                  a.path == path && decide (a.startOffset < e) && decide (s < a.endOffset)).map
                fun a =>
                  { a with
                    path := [textSnippetId, "content"],
                    startOffset := a.startOffset - s,
                    endOffset := min (e - s) (a.endOffset - s) },
              shown := [textSnippetId] } := by
      unfold copyPropertySelection
      rw [htext, hfilter, hmap]
    simp only [copySelection, Selection.isNull, Selection.isCollapsed, hbe]
    rw [hcp]
    simp
  · exact jsSubstring_length text s e (Nat.le_of_lt hse) hlen

/-- Witness for claim C2 on the concrete document docW2, window [1,3) over
"abcd": annotation a1 [1,3) is kept clipped to [0,2), annotation a2 [3,4) is
fully outside and dropped. -/
theorem claim2_witness :
    (docW2.getText pW2 = some "abcd" ∧ 1 < 3 ∧ 3 ≤ "abcd".length) ∧
    (copySelection 0 docW2 (some (Selection.property pW2 1 3 none)) =
      .ok ⟨some
        { nodes := [{ id := textSnippetId, type := docW2.defaultTextType,
                      content := jsSubstring "abcd" 1 3, ownedIds := [] }],
          annos := (docW2.annos.filter fun a =>
              a.path == pW2 && decide (a.startOffset < 3) && decide (1 < a.endOffset)).map
            fun a =>
              { a with
                path := [textSnippetId, "content"],
                startOffset := a.startOffset - 1,
                endOffset := min (3 - 1) (a.endOffset - 1) },
          shown := [textSnippetId] }, []⟩
    ∧ (jsSubstring "abcd" 1 3).length = 3 - 1) :=
  ⟨⟨rfl, by omega, by decide⟩,
   claim2_copy_property_selection 0 docW2 pW2 1 3 none "abcd" rfl (by omega) (by decide)⟩

/-- Claim C3: for every container selection with at least one fragment whose
copy run succeeds, the shown node ids are pairwise distinct (a node already
copied in the pass is not copied or shown twice) and form a subsequence of
the fragment owners in document order; and every node and annotation record
of the snippet is a record of the source document transformed exactly by the
first-fragment prefix trim [0, startOffset) and the last-fragment suffix
trim [endOffset, sourceLength) — including the degenerate case where the
first and last fragment are the same property, in which both transforms
apply in that order — so records on untrimmed properties are untouched. -/
theorem claim3_copy_container_selection (fuel : Nat) (doc : Doc) (F : List Fragment)
    (sn : Snippet) (hne : F ≠ []) (hok : copyContainerSelection fuel doc F = .ok sn) :
    sn.shown.Nodup ∧
    List.Sublist sn.shown (F.map Fragment.ownerId) ∧
    (∀ n ∈ sn.nodes, ∃ m ∈ doc.nodes, n = trimLastNodeSpec doc F (trimFirstNodeSpec F m)) ∧
    (∀ a ∈ sn.annos, ∃ b ∈ doc.annos, a = trimLastAnnoSpec doc F (trimFirstAnnoSpec F b)) := by
  have hE : F.isEmpty = false := by
    cases F with
    | nil => exact absurd rfl hne
    | cons _ _ => rfl
  rw [copyContainerSelection, hE] at hok
  simp only [Bool.false_eq_true, if_false] at hok
  cases hloop : copyFragLoop fuel doc F Snippet.empty [] with
  | error e => rw [hloop] at hok; cases hok
  | ok pair =>
    obtain ⟨sn0, created0⟩ := pair
    rw [hloop] at hok
    obtain ⟨⟨suffix, hsh, hsub⟩, hnd0, hn0, ha0⟩ :=
      copyFragLoop_inv fuel doc F Snippet.empty [] sn0 created0 hloop
        (by simp [Snippet.empty]) (by simp [Snippet.empty])
        (by simp [Snippet.empty]) (by simp [Snippet.empty])
    have hsh0 : sn0.shown = suffix := by simpa [Snippet.empty] using hsh
    obtain ⟨hln, hla, hls⟩ := applyLastTrim_spec doc F (applyFirstTrim F sn0) sn hok
    obtain ⟨hfn, hfa, hfs⟩ := applyFirstTrim_spec F sn0
    have hshown : sn.shown = sn0.shown := by rw [hls, hfs]
    refine ⟨?_, ?_, ?_, ?_⟩
    · rw [hshown]; exact hnd0
    · rw [hshown, hsh0]; exact hsub
    · intro n hn
      rw [hln, hfn, List.map_map] at hn
      obtain ⟨m, hm, rfl⟩ := List.mem_map.mp hn
      exact ⟨m, hn0 m hm, rfl⟩
    · intro a ha
      rw [hla, hfa, List.map_map] at ha
      obtain ⟨b, hb, rfl⟩ := List.mem_map.mp ha
      exact ⟨b, ha0 b hb, rfl⟩

/-- Witness for claim C3 on docW3 with a selection from offset 2 of p1 to
offset 2 of p2: p1 loses its prefix [0,2), p2 loses its suffix [2,3), the
annotation b1 on p1 is shifted accordingly. -/
theorem claim3_witness :
    (fragsW3 ≠ [] ∧ copyContainerSelection 1 docW3 fragsW3 = .ok snW3) ∧
    (snW3.shown.Nodup ∧
     List.Sublist snW3.shown (fragsW3.map Fragment.ownerId) ∧
     (∀ n ∈ snW3.nodes, ∃ m ∈ docW3.nodes,
        n = trimLastNodeSpec docW3 fragsW3 (trimFirstNodeSpec fragsW3 m)) ∧
     (∀ a ∈ snW3.annos, ∃ b ∈ docW3.annos,
        a = trimLastAnnoSpec docW3 fragsW3 (trimFirstAnnoSpec fragsW3 b))) :=
  ⟨⟨by decide, rfl⟩,
   claim3_copy_container_selection 1 docW3 fragsW3 snW3 (by decide) rfl⟩

/-- Counterexample to claim C4 as stated: on the self-owning document
cyclicDoc the transitive copy does not fail loudly with a data-integrity
error — at every finite recursion budget it has produced neither a result
nor any error besides exhausting the budget, i.e. the unbounded source
recursion simply never completes (the code contains no cycle detection). -/
theorem claim4_counterexample : copyNodeDivergesOn cyclicDoc "n1" :=
  fun fuel => cyclicDoc_diverges_aux fuel

/-- Claim C4 (amended): the transitive reference copy terminates for every
node whose owning references form a tree — witnessed by any rank function
decreasing along ownership edges, with the recursion depth bounded by the
root's rank; but the code performs no cycle detection, so on cyclic owning
references (a self-owning node) the recursion never completes and raises no
explicit data-integrity error. -/
theorem claim4_copy_node_termination :
    (∀ (doc : Doc) (rank : String → Nat) (id : String) (fuel : Nat),
      (∀ n ∈ doc.nodes, ∀ c ∈ n.ownedIds, (doc.getNode c).isSome = true) →
      (∀ n ∈ doc.nodes, ∀ c ∈ n.ownedIds, rank c < rank n.id) →
      (doc.getNode id).isSome = true → rank id < fuel →
      ∃ l, copyNodeFuel doc fuel id = .ok l) ∧
    copyNodeDivergesOn cyclicDoc "n1" := by
  constructor
  · intro doc rank id fuel hclosed hrank hroot hfuel
    exact copy_node_terminates_aux doc rank hclosed hrank (rank id) id fuel
      (le_refl _) hroot hfuel
  · intro fuel
    exact cyclicDoc_diverges_aux fuel

/-- Witness for claim C4 on the concrete ownership tree treeDocW with rank
function rankW: the copy of "par" completes within budget rank + 1 = 2. -/
theorem claim4_witness :
    (∀ n ∈ treeDocW.nodes, ∀ c ∈ n.ownedIds, (treeDocW.getNode c).isSome = true) ∧
    (∀ n ∈ treeDocW.nodes, ∀ c ∈ n.ownedIds, rankW c < rankW n.id) ∧
    (treeDocW.getNode "par").isSome = true ∧ rankW "par" < 2 ∧
    (∃ l, copyNodeFuel treeDocW 2 "par" = .ok l) :=
  ⟨by decide, by decide, by decide, by decide,
   claim4_copy_node_termination.1 treeDocW rankW "par" 2
     (by decide) (by decide) (by decide) (by decide)⟩

/-- Counterexample to claim C5 as stated: insertBefore called on a node with
no children array (a text-like XNode) and a reference that is not one of its
children does not throw — it silently returns the node unchanged, because
the whole body is guarded by `if (this.children)`. -/
theorem claim5_counterexample :
    insertBefore ⟨0, none⟩ ⟨1, none⟩ ⟨2, none⟩ = Except.ok ⟨0, none⟩ := rfl

/-- Claim C5 (amended): programming-contract violations fail immediately:
_updateRange throws its InvalidArgument error for every selection that is
not a property selection (null, container, node, custom), and insertBefore
throws its error whenever the receiving node has a children array and the
reference is not an actual child; on nodes without a children array
(text-like nodes) insertBefore instead silently returns the node. -/
theorem claim5_contract_violations_throw :
    (∀ (a : Anno), updateRange a Selection.nullSel =
      .error "Invalid argument: updateRange requires a PropertySelection.") ∧
    (∀ (a : Anno) frags sp so ep eo surf,
      updateRange a (Selection.container frags sp so ep eo surf) =
        .error "Invalid argument: updateRange requires a PropertySelection.") ∧
    (∀ (a : Anno) nid cid mode surf,
      updateRange a (Selection.node nid cid mode surf) =
        .error "Invalid argument: updateRange requires a PropertySelection.") ∧
    (∀ (a : Anno) k, updateRange a (Selection.custom k) =
      .error "Invalid argument: updateRange requires a PropertySelection.") ∧
    (∀ (x n b : XNode) (cs : List Nat), x.children = some cs →
      cs.contains b.ident = false →
      insertBefore x n b =
        .error "insertBefore: reference node is not a child of this element.") ∧
    (∀ (x n b : XNode), x.children = none → insertBefore x n b = .ok x) := by
  refine ⟨fun a => rfl, fun a frags sp so ep eo surf => rfl, fun a nid cid mode surf => rfl,
    fun a k => rfl, fun x n b cs hc hb => ?_, fun x n b hc => ?_⟩
  · unfold insertBefore
    rw [hc]
    have hb2 : b.ident ∉ cs := by simpa using hb
    simp [hb2]
  · unfold insertBefore
    rw [hc]

/-- Witness for claim C5: a tag node with children [5, 6] and a reference
with identity 7 that is not a child — insertBefore throws. -/
theorem claim5_witness :
    (XNode.mk 0 (some [5, 6])).children = some [5, 6] ∧
    ([5, 6].contains (7 : Nat)) = false ∧
    insertBefore ⟨0, some [5, 6]⟩ ⟨1, none⟩ ⟨7, none⟩ =
      .error "insertBefore: reference node is not a child of this element." :=
  ⟨rfl, by decide,
   claim5_contract_violations_throw.2.2.2.2.1 ⟨0, some [5, 6]⟩ ⟨1, none⟩ ⟨7, none⟩
     [5, 6] rfl (by decide)⟩

/-- Claim C6: a non-null, non-collapsed selection of an unsupported kind
makes copySelection return no copy, with the limitation reported as a
console.error diagnostic and no error thrown — no partial output. -/
theorem claim6_unsupported_selection_returns_null (fuel : Nat) (doc : Doc) (k : String) :
    copySelection fuel doc (some (Selection.custom k)) =
      .ok ⟨none, ["Copy is not yet supported for selection type."]⟩ := rfl

/-- Claim C7: isInsideOf returns false for a null selection; for a property
selection it returns true iff the annotation has the same path and, when
strict, its offsets lie strictly inside the selection's offsets, otherwise
inclusively; for every other selection kind it returns the undefined result
(no containment) together with a console.warn diagnostic and throws
nothing. -/
theorem claim7_is_inside_of :
    (∀ (a : Anno) (strict : Bool), isInsideOf a Selection.nullSel strict = (some false, [])) ∧
    (∀ (a : Anno) p s e surf, isInsideOf a (Selection.property p s e surf) true =
      (some (a.path == p && decide (s < a.startOffset) && decide (a.endOffset < e)), [])) ∧
    (∀ (a : Anno) p s e surf, isInsideOf a (Selection.property p s e surf) false =
      (some (a.path == p && decide (s ≤ a.startOffset) && decide (a.endOffset ≤ e)), [])) ∧
    (∀ (a : Anno) frags sp so ep eo surf strict,
      isInsideOf a (Selection.container frags sp so ep eo surf) strict =
        (none, ["isInsideOf does not support other selection types."])) ∧
    (∀ (a : Anno) nid cid mode surf strict,
      isInsideOf a (Selection.node nid cid mode surf) strict =
        (none, ["isInsideOf does not support other selection types."])) ∧
    (∀ (a : Anno) k strict, isInsideOf a (Selection.custom k) strict =
      (none, ["isInsideOf does not support other selection types."])) :=
  ⟨fun a strict => rfl, fun a p s e surf => rfl, fun a p s e surf => rfl,
   fun a frags sp so ep eo surf strict => rfl, fun a nid cid mode surf strict => rfl,
   fun a k strict => rfl⟩

/-- Claim C8: for every annotation and property selection, _updateRange
succeeds and emits exactly the writes for the components that differ — the
path write iff the paths differ by element-wise comparison, and each offset
write independently iff that offset differs; nothing else is written. -/
theorem claim8_update_range_minimal_writes (a : Anno) (p : List String) (s e : Nat)
    (surf : Option String) :
    ∃ ws, updateRange a (Selection.property p s e surf) = .ok ws ∧
      (WriteOp.setPath a.id p ∈ ws ↔ a.path ≠ p) ∧
      (WriteOp.setStartOffset a.id s ∈ ws ↔ a.startOffset ≠ s) ∧
      (WriteOp.setEndOffset a.id e ∈ ws ↔ a.endOffset ≠ e) ∧
      (∀ w ∈ ws, w = WriteOp.setPath a.id p ∨ w = WriteOp.setStartOffset a.id s ∨
        w = WriteOp.setEndOffset a.id e) := by
  refine ⟨_, rfl, ?_, ?_, ?_, ?_⟩
  · by_cases h1 : a.path = p <;> by_cases h2 : a.startOffset = s <;>
      by_cases h3 : a.endOffset = e <;> simp [h1, h2, h3]
  · by_cases h1 : a.path = p <;> by_cases h2 : a.startOffset = s <;>
      by_cases h3 : a.endOffset = e <;> simp [h1, h2, h3]
  · by_cases h1 : a.path = p <;> by_cases h2 : a.startOffset = s <;>
      by_cases h3 : a.endOffset = e <;> simp [h1, h2, h3]
  · intro w hw
    by_cases h1 : a.path = p <;> by_cases h2 : a.startOffset = s <;>
      by_cases h3 : a.endOffset = e <;> simp [h1, h2, h3] at hw <;> tauto

/-- Claim C9: with a null selection the region-state resolver reports every
region as not-selected, unconditionally, regardless of the region tree. -/
theorem claim9_null_selection_not_selected :
    ∀ region : String, regionMode Selection.nullSel region = none := fun _ => rfl

/-- Claim C10: copySelection with a missing selection argument throws the
mandatory-selection error; for every null or collapsed selection it returns
null with no snippet created, no diagnostics, and, being a pure function of
the document, no modification of it. -/
theorem claim10_copy_selection_guards :
    (∀ (fuel : Nat) (doc : Doc),
      copySelection fuel doc none = .error CopyErr.mandatorySelection) ∧
    (∀ (fuel : Nat) (doc : Doc) (sel : Selection),
      sel.isNull = true ∨ sel.isCollapsed = true →
      copySelection fuel doc (some sel) = .ok ⟨none, []⟩) := by
  refine ⟨fun fuel doc => rfl, fun fuel doc sel h => ?_⟩
  have hb : (!sel.isNull && !sel.isCollapsed) = false := by
    rcases h with h | h <;> simp [h]
  simp [copySelection, hb]

/-- Witness for claim C10 at a null and at a collapsed property selection. -/
theorem claim10_witness :
    Selection.nullSel.isNull = true ∧
    (Selection.property pW2 2 2 none).isCollapsed = true ∧
    copySelection 0 docW2 none = .error CopyErr.mandatorySelection ∧
    copySelection 0 docW2 (some Selection.nullSel) = .ok ⟨none, []⟩ ∧
    copySelection 0 docW2 (some (Selection.property pW2 2 2 none)) = .ok ⟨none, []⟩ :=
  ⟨rfl, by decide, claim10_copy_selection_guards.1 0 docW2,
   claim10_copy_selection_guards.2 0 docW2 Selection.nullSel (Or.inl rfl),
   claim10_copy_selection_guards.2 0 docW2 (Selection.property pW2 2 2 none)
     (Or.inr (by decide))⟩

/-- Witness for claim C8 at a concrete annotation and selection where all
three components differ. -/
theorem claim8_witness :
    ∃ ws, updateRange ⟨"a1", ["p1", "content"], 1, 3⟩
        (Selection.property ["p2", "content"] 2 4 none) = .ok ws ∧
      (WriteOp.setPath "a1" ["p2", "content"] ∈ ws ↔ ["p1", "content"] ≠ ["p2", "content"]) ∧
      (WriteOp.setStartOffset "a1" 2 ∈ ws ↔ (1 : Nat) ≠ 2) ∧
      (WriteOp.setEndOffset "a1" 4 ∈ ws ↔ (3 : Nat) ≠ 4) ∧
      (∀ w ∈ ws, w = WriteOp.setPath "a1" ["p2", "content"] ∨
        w = WriteOp.setStartOffset "a1" 2 ∨ w = WriteOp.setEndOffset "a1" 4) :=
  claim8_update_range_minimal_writes ⟨"a1", ["p1", "content"], 1, 3⟩ ["p2", "content"] 2 4 none
